import Mathlib

/-!
Shallow embedding of the analysis core of `calendar_manager.py` (kaushalvivek/calendar-agent):
the event model (`CalendarEvent` and its derived properties), the interval analyzer
(`_find_free_blocks`, `_count_back_to_back`, `analyze_schedule`) and the meeting classifier
(`stack_rank_meetings`).

Modelling conventions:
- Python timezone-aware datetimes are modelled as `Int`: whole seconds since an arbitrary epoch
  (the IST normalization is upstream and uniform, so only differences matter).  The code's
  `datetime.now(self.IST).replace(hour=9, minute=0, second=0, microsecond=0)` keeps the *date*
  of the wall clock; we pass that date in as an explicit parameter `today` = seconds at midnight
  of the current day, so the workday window is `today + 9*3600 .. today + 22*3600`.
- `(a - b).total_seconds() / 60` compared against an integer bound `k` is modelled exactly:
  `s / 60 < k ↔ s < 60 * k` and `s / 60 ≥ k ↔ s ≥ 60 * k` over the reals, and the float
  division of integer-second spans in the realistic range cannot cross these boundaries.
- `int(x)` (Python truncation toward zero) is `pyTruncMinutes`.
- Python strings are `List Char`; `str.lower()` is `Char.toLower` mapped over the list
  (it agrees with Python on ASCII, which covers every keyword the code matches).
- `sorted(events, key=lambda e: e.start)` is a stable sort by start; `List.insertionSort`
  with the reflexive relation `startLe` is extensionally the same stable sort.
-/

namespace CalendarAgent

/-- Response status of the viewing user, from `EventStatus` in the source. -/
inductive EventStatus where
  | accepted
  | declined
  | tentative
  | needsAction
  deriving DecidableEq

/-- An attendee record: the Python code passes opaque dicts through unmodified; modelled as
association lists of string pairs. -/
abbrev Attendee := List (List Char × List Char)

/-- Python truncation toward zero of `s / 60` (for `int(span.total_seconds() / 60)`). -/
def pyTruncMinutes (s : Int) : Int :=
  if 0 ≤ s then ((s.toNat / 60 : Nat) : Int) else -(((-s).toNat / 60 : Nat) : Int)

/-- Test whether the first list is an initial segment of the second. -/
def leadEq : List Char → List Char → Bool
  | [], _ => true
  | _ :: _, [] => false
  | c :: cs, d :: ds => c == d && leadEq cs ds

/-- Python's substring test `needle in hay`. -/
def hasSub (needle : List Char) : List Char → Bool
  | [] => leadEq needle []
  | c :: cs => leadEq needle (c :: cs) || hasSub needle cs

/-- Python `str.lower()` (ASCII case folding, which covers every keyword in the source). -/
def pyLower (s : List Char) : List Char := s.map Char.toLower

/-- Marker substring "Focus Block" tested by `CalendarEvent.is_focus_block`. -/
def focusBlockKw : List Char := "Focus Block".toList

/-- Marker substring "🎯" tested by `CalendarEvent.is_focus_block`. -/
def focusEmojiKw : List Char := "🎯".toList

/-- Marker substring "Commute" tested by `CalendarEvent.is_commute`. -/
def commuteKw : List Char := "Commute".toList

/-- Marker substring "🚗" tested by `CalendarEvent.is_commute`. -/
def commuteEmojiKw : List Char := "🚗".toList

/-- The `CalendarEvent` dataclass.  The generated `__init__` just stores the fields; there is
no `__post_init__` and no validation of any kind, so construction is a total function.
Python's field defaults (`status=ACCEPTED`, `location=None`, ...) only affect call sites and
are irrelevant to the analysis semantics. -/
structure CalendarEvent where
  id : List Char
  title : List Char
  start : Int
  «end» : Int
  status : EventStatus
  location : Option (List Char)
  description : Option (List Char)
  attendees : Option (List Attendee)
  has_meeting_link : Bool
  deriving DecidableEq

/-- Source: `int((self.end - self.start).total_seconds() / 60)`. -/
def CalendarEvent.duration_minutes (e : CalendarEvent) : Int :=
  pyTruncMinutes (e.«end» - e.start)

/-- Source: `"Focus Block" in self.title or "🎯" in self.title`. -/
def CalendarEvent.is_focus_block (e : CalendarEvent) : Bool :=
  hasSub focusBlockKw e.title || hasSub focusEmojiKw e.title

/-- Source: `"Commute" in self.title or "🚗" in self.title`. -/
def CalendarEvent.is_commute (e : CalendarEvent) : Bool :=
  hasSub commuteKw e.title || hasSub commuteEmojiKw e.title

/-- The sort key relation of `sorted(events, key=lambda e: e.start)`. -/
def startLe (a b : CalendarEvent) : Prop := a.start ≤ b.start

instance : DecidableRel startLe := fun a b => Int.decLe a.start b.start

/-- Chain form of "sorted and pairwise non-overlapping": each event ends no later than any
later event starts. -/
def disjChain (a b : CalendarEvent) : Prop := a.«end» ≤ b.start

instance : DecidableRel disjChain := fun a b => Int.decLe a.«end» b.start

/-- The stable sort by start time performed inside the analyzer. -/
def sortByStart (events : List CalendarEvent) : List CalendarEvent :=
  List.insertionSort startLe events

/-- Workday opens at 09:00 local time (`.replace(hour=9, ...)`). -/
def workdayStartOffset : Int := 9 * 3600

/-- Workday closes at 22:00 local time (`.replace(hour=22, ...)`). -/
def workdayEndOffset : Int := 22 * 3600

/-- The "time before first event" phase of `_find_free_blocks`. -/
def beforeBlock (ws m : Int) : List CalendarEvent → List (Int × Int)
  | [] => []
  | e :: _ => if ws < e.start ∧ 60 * m ≤ e.start - ws then [(ws, e.start)] else []

/-- The "gaps between events" loop of `_find_free_blocks`. -/
def gapBlocks (m : Int) : List CalendarEvent → List (Int × Int)
  | [] => []
  | [_] => []
  | a :: b :: rest =>
      (if 60 * m ≤ b.start - a.«end» then [(a.«end», b.start)] else []) ++ gapBlocks m (b :: rest)

/-- The "time after last event" phase of `_find_free_blocks` (structural recursion to the
last element, i.e. `events[-1]`). -/
def afterBlock (we m : Int) : List CalendarEvent → List (Int × Int)
  | [] => []
  | [e] => if e.«end» < we ∧ 60 * m ≤ we - e.«end» then [(e.«end», we)] else []
  | _ :: b :: rest => afterBlock we m (b :: rest)

/-- Source: `_find_free_blocks(self, events, min_duration_minutes=30)`.  `today` is the
midnight of `datetime.now(self.IST)` in seconds; an empty input returns `[]` before any
window is considered.  The three phases append their blocks in source order. -/
def find_free_blocks (today : Int) (events : List CalendarEvent) (m : Int) : List (Int × Int) :=
  if events.isEmpty then []
  else
    beforeBlock (today + workdayStartOffset) m (sortByStart events)
      ++ (gapBlocks m (sortByStart events)
      ++ afterBlock (today + workdayEndOffset) m (sortByStart events))

/-- The pair-scanning loop of `_count_back_to_back`: gap `< 15` minutes is
`next.start - current.end < 900` seconds. -/
def pairGapCount : List CalendarEvent → Nat
  | [] => 0
  | [_] => 0
  | a :: b :: rest => (if b.start - a.«end» < 900 then 1 else 0) + pairGapCount (b :: rest)

/-- Source: `_count_back_to_back(self, events)`. -/
def count_back_to_back (events : List CalendarEvent) : Nat :=
  if events.length < 2 then 0 else pairGapCount (sortByStart events)

/-- Critical keywords of rule 1 in `stack_rank_meetings`. -/
def criticalKws : List (List Char) :=
  ["production".toList, "deploy".toList, "leads".toList, "epd".toList,
   "gtm".toList, "critical".toList, "urgent".toList]

/-- Important keywords of rule 2 in `stack_rank_meetings`. -/
def importantKws : List (List Char) :=
  ["daily".toList, "migration".toList, "customer".toList, "onboarding".toList,
   "1:1".toList, "weekly".toList]

/-- Generic sync keywords of rule 3 in `stack_rank_meetings`. -/
def moderateKws : List (List Char) :=
  ["sync".toList, "catch".toList, "check".toList]

/-- Keyword "list" of rule 4 in `stack_rank_meetings`. -/
def cancelListKw : List Char := "list".toList

/-- Rule 1 test: `any(word in title_lower for word in [...critical...])`. -/
def critHit (e : CalendarEvent) : Bool :=
  criticalKws.any fun w => hasSub w (pyLower e.title)

/-- Rule 2 test. -/
def impHit (e : CalendarEvent) : Bool :=
  importantKws.any fun w => hasSub w (pyLower e.title)

/-- Rule 3 test. -/
def modHit (e : CalendarEvent) : Bool :=
  moderateKws.any fun w => hasSub w (pyLower e.title)

/-- Rule 4 test: `meeting.duration_minutes <= 30 or 'list' in title_lower`. -/
def cancHit (e : CalendarEvent) : Bool :=
  decide (e.duration_minutes ≤ 30) || hasSub cancelListKw (pyLower e.title)

/-- The meeting filter `not e.is_focus_block and not e.is_commute`. -/
def isMeeting (e : CalendarEvent) : Bool := !e.is_focus_block && !e.is_commute

/-- The four tier lists returned by `stack_rank_meetings`. -/
structure StackRank where
  critical : List CalendarEvent
  important : List CalendarEvent
  moderate : List CalendarEvent
  cancelable : List CalendarEvent
  deriving DecidableEq

/-- The classification loop of `stack_rank_meetings`: each meeting is appended, in input
order, to the tier chosen by the first matching rule (fallthrough appends to moderate). -/
def rankLoop : List CalendarEvent → StackRank
  | [] => ⟨[], [], [], []⟩
  | e :: rest =>
    let r := rankLoop rest
    if critHit e then ⟨e :: r.critical, r.important, r.moderate, r.cancelable⟩
    else if impHit e then ⟨r.critical, e :: r.important, r.moderate, r.cancelable⟩
    else if modHit e then ⟨r.critical, r.important, e :: r.moderate, r.cancelable⟩
    else if cancHit e then ⟨r.critical, r.important, r.moderate, e :: r.cancelable⟩
    else ⟨r.critical, r.important, e :: r.moderate, r.cancelable⟩

/-- Source: `stack_rank_meetings(self, events)` with an explicit event list (the
`events is None` branch fetches from the network and is outside the analysis core). -/
def stack_rank_meetings (events : List CalendarEvent) : StackRank :=
  rankLoop (events.filter isMeeting)

/-- The dictionary returned by `analyze_schedule`.  The two `*_hours` fields are
`total_minutes / 60`; the Python value is a float, modelled as the exact rational. -/
structure ScheduleAnalysis where
  total_events : Nat
  total_meetings : Nat
  focus_hours : ℚ
  meeting_hours : ℚ
  free_blocks : List (Int × Int)
  back_to_back_count : Nat
  deriving DecidableEq

/-- Source: `analyze_schedule`, applied to an already-fetched event list.  `today` is the
current date (midnight, seconds) used by `_find_free_blocks`; the free-block minimum
duration is the default 30. -/
def analyze_schedule (today : Int) (events : List CalendarEvent) : ScheduleAnalysis :=
  ⟨events.length,
   (events.filter isMeeting).length,
   ((((events.filter fun e => e.is_focus_block).map CalendarEvent.duration_minutes).sum : Int) : ℚ) / 60,
   ((((events.filter isMeeting).map CalendarEvent.duration_minutes).sum : Int) : ℚ) / 60,
   find_free_blocks today events 30,
   count_back_to_back events⟩

/-- Title built by `create_focus_block`: `f"🎯 Focus Block: {title}"`. -/
def focusBlockTitle (title : List Char) : List Char := "🎯 Focus Block: ".toList ++ title

/-- Title used by `create_commute_block`: `"🚗 Commute"`. -/
def commuteBlockTitle : List Char := "🚗 Commute".toList

/-- Event with a given title (the derived flags depend on no other field). -/
def mkTitled (title : List Char) : CalendarEvent :=
  ⟨"id".toList, title, 0, 3600, .accepted, none, none, none, false⟩

/-- The projection of an event to the only data the interval analyzer reads. -/
def proj (e : CalendarEvent) : Int × Int := (e.start, e.«end»)

/-- Spec-side definition, following the spec's words `round((end-start) in minutes)`:
Python `round` on the exact span in minutes, rounding halves to even. -/
def roundSpecMinutes (s : Int) : Int :=
  let q := Int.fdiv s 60
  let r := s - 60 * q
  if 2 * r < 60 then q else if 60 < 2 * r then q + 1 else if q % 2 = 0 then q else q + 1

/-- Spec-side form of the back-to-back count: the number of adjacent pairs of the sorted
list whose gap is under 15 minutes (900 seconds). -/
def specAdjacentCount (l : List CalendarEvent) : Nat :=
  (l.zip l.tail).countP fun p => decide (p.2.start - p.1.«end» < 900)

/-- A one-hour 10:00-11:00 meeting (seconds from midnight of day 0). -/
def evMeeting : CalendarEvent :=
  ⟨"e1".toList, "team meeting".toList, 36000, 39600, .accepted, none, none, none, false⟩

/-- The same interval as `evMeeting` with a different title. -/
def evMeetingB : CalendarEvent :=
  ⟨"e1b".toList, "planning".toList, 36000, 39600, .accepted, none, none, none, false⟩

/-- An event whose span is 90 seconds, i.e. 1.5 minutes. -/
def evNinety : CalendarEvent :=
  ⟨"e2".toList, "standup".toList, 0, 90, .accepted, none, none, none, false⟩

/-- An event constructed with `end` strictly before `start`. -/
def evBad : CalendarEvent :=
  ⟨"e3".toList, "x".toList, 100, 0, .accepted, none, none, none, false⟩

/-- An event whose span is 3725 seconds (62 minutes and 5 seconds). -/
def evOddLen : CalendarEvent :=
  ⟨"e5".toList, "retro".toList, 0, 3725, .accepted, none, none, none, false⟩

/-- A zero-width event at t = 10 s. -/
def evZeroWidth : CalendarEvent :=
  ⟨"z".toList, "z".toList, 10, 10, .accepted, none, none, none, false⟩

/-- An event starting at the same instant as `evZeroWidth` but 90 s long. -/
def evAfterZero : CalendarEvent :=
  ⟨"w".toList, "w".toList, 10, 100, .accepted, none, none, none, false⟩

/-- A later event. -/
def evLate : CalendarEvent :=
  ⟨"l".toList, "l".toList, 2000, 2100, .accepted, none, none, none, false⟩

/-- Twin events with identical start and end but different titles. -/
def evTwinA : CalendarEvent :=
  ⟨"a".toList, "alpha".toList, 5, 10, .accepted, none, none, none, false⟩

/-- Twin of `evTwinA`. -/
def evTwinB : CalendarEvent :=
  ⟨"b".toList, "beta".toList, 5, 10, .accepted, none, none, none, false⟩

/-- Spec scenario event "Daily Standup" 09:00-10:00. -/
def evDaily : CalendarEvent :=
  ⟨"d1".toList, "Daily Standup".toList, 32400, 36000, .accepted, none, none, none, false⟩

/-- Spec scenario event "Production Incident Review" 10:05-11:00. -/
def evProd : CalendarEvent :=
  ⟨"d2".toList, "Production Incident Review".toList, 36300, 39600, .accepted, none, none, none, false⟩

/-- Spec scenario event "Team Sync" 11:00-11:30. -/
def evSync : CalendarEvent :=
  ⟨"d3".toList, "Team Sync".toList, 39600, 41400, .accepted, none, none, none, false⟩

/-- A 90-minute meeting whose title contains "list" but no rule 1-3 keyword. -/
def evListLong : CalendarEvent :=
  ⟨"e4".toList, "todo list deep dive".toList, 0, 5400, .accepted, none, none, none, false⟩

lemma head_start_le_of_sorted {a : CalendarEvent} {t : List CalendarEvent}
    (h : (a :: t).Pairwise startLe) : ∀ e ∈ a :: t, a.start ≤ e.start := by
  intro e he
  rcases List.mem_cons.mp he with rfl | he2
  · exact le_refl _
  · exact (List.pairwise_cons.mp h).1 e he2

lemma beforeBlock_sound (ws m : Int) (l : List CalendarEvent) (hsort : l.Pairwise startLe) :
    ∀ blk ∈ beforeBlock ws m l, 60 * m ≤ blk.2 - blk.1 ∧ ∀ e ∈ l, blk.2 ≤ e.start := by
  cases l with
  | nil => simp [beforeBlock]
  | cons a t =>
    intro blk hblk
    simp only [beforeBlock] at hblk
    by_cases hc : ws < a.start ∧ 60 * m ≤ a.start - ws
    · rw [if_pos hc] at hblk
      simp only [List.mem_singleton] at hblk
      subst hblk
      exact ⟨hc.2, fun e he => head_start_le_of_sorted hsort e he⟩
    · rw [if_neg hc] at hblk
      simp at hblk

lemma gapBlocks_fst (m : Int) (a : CalendarEvent) (t : List CalendarEvent)
    (hwf : ∀ e ∈ a :: t, e.start ≤ e.«end») (hdisj : (a :: t).Pairwise disjChain) :
    ∀ blk ∈ gapBlocks m (a :: t), a.«end» ≤ blk.1 := by
  induction t generalizing a with
  | nil => intro blk hblk; simp [gapBlocks] at hblk
  | cons b rest ih =>
    intro blk hblk
    simp only [gapBlocks] at hblk
    rcases List.mem_append.mp hblk with h1 | h2
    · by_cases hc : 60 * m ≤ b.start - a.«end»
      · rw [if_pos hc] at h1
        simp only [List.mem_singleton] at h1
        subst h1
        exact le_refl _
      · rw [if_neg hc] at h1; simp at h1
    · have hab : a.«end» ≤ b.start := (List.pairwise_cons.mp hdisj).1 b (by simp)
      have hb : b.start ≤ b.«end» := hwf b (by simp)
      have hrec := ih b (fun e he => hwf e (List.mem_cons_of_mem a he))
        (List.pairwise_cons.mp hdisj).2 blk h2
      omega

lemma gapBlocks_sound (m : Int) (l : List CalendarEvent)
    (hwf : ∀ e ∈ l, e.start ≤ e.«end») (hdisj : l.Pairwise disjChain) :
    ∀ blk ∈ gapBlocks m l,
      60 * m ≤ blk.2 - blk.1 ∧
      ∀ p : Int, blk.1 < p → p < blk.2 → ∀ e ∈ l, ¬(e.start ≤ p ∧ p ≤ e.«end») := by
  induction l with
  | nil => simp [gapBlocks]
  | cons a t ih =>
    intro blk hblk
    cases t with
    | nil => simp [gapBlocks] at hblk
    | cons b rest =>
      simp only [gapBlocks] at hblk
      have hwt : ∀ e ∈ b :: rest, e.start ≤ e.«end» :=
        fun e he => hwf e (List.mem_cons_of_mem a he)
      have hdt : (b :: rest).Pairwise disjChain := (List.pairwise_cons.mp hdisj).2
      have hab : a.«end» ≤ b.start := (List.pairwise_cons.mp hdisj).1 b (by simp)
      have hbwf : b.start ≤ b.«end» := hwf b (by simp)
      rcases List.mem_append.mp hblk with h1 | h2
      · by_cases hc : 60 * m ≤ b.start - a.«end»
        · rw [if_pos hc] at h1
          simp only [List.mem_singleton] at h1
          subst h1
          refine ⟨hc, ?_⟩
          intro p hp1 hp2 e he
          rintro ⟨hsp, hpe⟩
          rcases List.mem_cons.mp he with rfl | he2
          · omega
          rcases List.mem_cons.mp he2 with rfl | he3
          · omega
          · have : b.«end» ≤ e.start := (List.pairwise_cons.mp hdt).1 e he3
            omega
        · rw [if_neg hc] at h1; simp at h1
      · obtain ⟨hdur, hpts⟩ := ih hwt hdt blk h2
        refine ⟨hdur, ?_⟩
        intro p hp1 hp2 e he
        rcases List.mem_cons.mp he with rfl | he2
        · have hfst : b.«end» ≤ blk.1 := gapBlocks_fst m b rest hwt hdt blk h2
          rintro ⟨hsp, hpe⟩
          omega
        · exact hpts p hp1 hp2 e he2

lemma afterBlock_sound (we m : Int) (l : List CalendarEvent)
    (hwf : ∀ e ∈ l, e.start ≤ e.«end») (hdisj : l.Pairwise disjChain) :
    ∀ blk ∈ afterBlock we m l, 60 * m ≤ blk.2 - blk.1 ∧ ∀ e ∈ l, e.«end» ≤ blk.1 := by
  induction l with
  | nil => simp [afterBlock]
  | cons a t ih =>
    intro blk hblk
    cases t with
    | nil =>
      simp only [afterBlock] at hblk
      by_cases hc : a.«end» < we ∧ 60 * m ≤ we - a.«end»
      · rw [if_pos hc] at hblk
        simp only [List.mem_singleton] at hblk
        subst hblk
        refine ⟨hc.2, ?_⟩
        intro e he
        rcases List.mem_cons.mp he with rfl | he2
        · exact le_refl _
        · simp at he2
      · rw [if_neg hc] at hblk; simp at hblk
    | cons b rest =>
      have hwt : ∀ e ∈ b :: rest, e.start ≤ e.«end» :=
        fun e he => hwf e (List.mem_cons_of_mem a he)
      have hdt : (b :: rest).Pairwise disjChain := (List.pairwise_cons.mp hdisj).2
      have hab : a.«end» ≤ b.start := (List.pairwise_cons.mp hdisj).1 b (by simp)
      have hbwf : b.start ≤ b.«end» := hwf b (by simp)
      have hblk' : blk ∈ afterBlock we m (b :: rest) := hblk
      obtain ⟨hdur, hbound⟩ := ih hwt hdt blk hblk'
      refine ⟨hdur, ?_⟩
      intro e he
      rcases List.mem_cons.mp he with rfl | he2
      · have := hbound b (by simp)
        omega
      · exact hbound e he2

/-- Claim C1: for every event list that is sorted by start time and pairwise non-overlapping
(chain form: each event ends no later than any later event starts) and whose events are
well-formed intervals (`start ≤ end`, the spec's data-model invariant), every block returned
by `_find_free_blocks` spans at least `m` minutes (`60 * m` seconds), and no point strictly
inside a returned block lies inside any event's `[start, end]` interval. -/
theorem free_blocks_min_duration_and_outside_events
    (today m : Int) (events : List CalendarEvent)
    (hwf : ∀ e ∈ events, e.start ≤ e.«end»)
    (hsorted : events.Pairwise startLe)
    (hdisj : events.Pairwise disjChain) :
    ∀ blk ∈ find_free_blocks today events m,
      60 * m ≤ blk.2 - blk.1 ∧
      ∀ p : Int, blk.1 < p → p < blk.2 → ∀ e ∈ events, ¬(e.start ≤ p ∧ p ≤ e.«end») := by
  intro blk hblk
  unfold find_free_blocks at hblk
  by_cases hne : events.isEmpty
  · rw [if_pos hne] at hblk; simp at hblk
  · rw [if_neg hne] at hblk
    have hss : sortByStart events = events := List.Sorted.insertionSort_eq hsorted
    rw [hss] at hblk
    rcases List.mem_append.mp hblk with hb | hrest
    · obtain ⟨hdur, hbound⟩ := beforeBlock_sound _ m events hsorted blk hb
      refine ⟨hdur, ?_⟩
      intro p hp1 hp2 e he
      rintro ⟨hsp, hpe⟩
      have := hbound e he
      omega
    · rcases List.mem_append.mp hrest with hg | ha
      · exact gapBlocks_sound m events hwf hdisj blk hg
      · obtain ⟨hdur, hbound⟩ := afterBlock_sound _ m events hwf hdisj blk ha
        refine ⟨hdur, ?_⟩
        intro p hp1 hp2 e he
        rintro ⟨hsp, hpe⟩
        have := hbound e he
        omega

/-- Witness for C1 at a concrete input: a single 10:00-11:00 meeting on day 0. -/
theorem free_blocks_min_duration_witness :
    ((∀ e ∈ [evMeeting], e.start ≤ e.«end») ∧
      [evMeeting].Pairwise startLe ∧ [evMeeting].Pairwise disjChain) ∧
    ∀ blk ∈ find_free_blocks 0 [evMeeting] 30,
      60 * 30 ≤ blk.2 - blk.1 ∧
      ∀ p : Int, blk.1 < p → p < blk.2 → ∀ e ∈ [evMeeting], ¬(e.start ≤ p ∧ p ≤ e.«end») :=
  ⟨⟨by decide, by decide, by decide⟩,
    free_blocks_min_duration_and_outside_events 0 30 [evMeeting]
      (by decide) (by decide) (by decide)⟩

lemma pairGapCount_eq_specAdjacentCount : ∀ l, pairGapCount l = specAdjacentCount l := by
  intro l
  induction l with
  | nil => simp [pairGapCount, specAdjacentCount]
  | cons a t ih =>
    cases t with
    | nil => simp [pairGapCount, specAdjacentCount]
    | cons b rest =>
      simp only [pairGapCount, specAdjacentCount, List.tail_cons, List.zip_cons_cons,
        List.countP_cons] at *
      rw [ih]
      by_cases h : b.start - a.«end» < 900
      · simp [h]; omega
      · simp [h]

/-- Claim C2: `_count_back_to_back` returns exactly the number of adjacent pairs of the
start-sorted list whose gap `next.start - current.end` is under 15 minutes (900 seconds,
negative gaps included), and returns 0 for every list of length below 2. -/
theorem back_to_back_counts_close_pairs (events : List CalendarEvent) :
    count_back_to_back events = specAdjacentCount (sortByStart events) ∧
    (events.length < 2 → count_back_to_back events = 0) := by
  constructor
  · unfold count_back_to_back
    by_cases h : events.length < 2
    · rw [if_pos h]
      rcases events with _ | ⟨a, _ | ⟨b, t⟩⟩
      · simp [specAdjacentCount, sortByStart, List.insertionSort]
      · simp [specAdjacentCount, sortByStart, List.insertionSort, List.orderedInsert]
      · simp only [List.length_cons] at h; omega
    · rw [if_neg h]
      exact pairGapCount_eq_specAdjacentCount _
  · intro h
    unfold count_back_to_back
    rw [if_pos h]

/-- Witness for C2 at a concrete input: a singleton list has count 0. -/
theorem back_to_back_witness : count_back_to_back [evDaily] = 0 :=
  (back_to_back_counts_close_pairs [evDaily]).2 (by decide)

lemma rankLoop_critical (l : List CalendarEvent) :
    (rankLoop l).critical = l.filter critHit := by
  induction l with
  | nil => rfl
  | cons e t ih =>
    by_cases h1 : critHit e = true <;> by_cases h2 : impHit e = true <;>
      by_cases h3 : modHit e = true <;> by_cases h4 : cancHit e = true <;>
      simp [rankLoop, List.filter_cons, h1, h2, h3, h4, ih]

lemma rankLoop_important (l : List CalendarEvent) :
    (rankLoop l).important = l.filter fun e => !critHit e && impHit e := by
  induction l with
  | nil => rfl
  | cons e t ih =>
    by_cases h1 : critHit e = true <;> by_cases h2 : impHit e = true <;>
      by_cases h3 : modHit e = true <;> by_cases h4 : cancHit e = true <;>
      simp [rankLoop, List.filter_cons, h1, h2, h3, h4, ih]

lemma rankLoop_moderate (l : List CalendarEvent) :
    (rankLoop l).moderate = l.filter fun e => !critHit e && !impHit e && (modHit e || !cancHit e) := by
  induction l with
  | nil => rfl
  | cons e t ih =>
    by_cases h1 : critHit e = true <;> by_cases h2 : impHit e = true <;>
      by_cases h3 : modHit e = true <;> by_cases h4 : cancHit e = true <;>
      simp [rankLoop, List.filter_cons, h1, h2, h3, h4, ih]

lemma rankLoop_cancelable (l : List CalendarEvent) :
    (rankLoop l).cancelable = l.filter fun e => !critHit e && !impHit e && !modHit e && cancHit e := by
  induction l with
  | nil => rfl
  | cons e t ih =>
    by_cases h1 : critHit e = true <;> by_cases h2 : impHit e = true <;>
      by_cases h3 : modHit e = true <;> by_cases h4 : cancHit e = true <;>
      simp [rankLoop, List.filter_cons, h1, h2, h3, h4, ih]

/-- Claim C3: the four tiers of `stack_rank_meetings` are pairwise disjoint; every input
event with both derived flags false lands in some tier (hence, by disjointness, in exactly
one); events flagged focus-block or commute appear in no tier; and each tier is a sublist of
the input, so each tier preserves the input's relative order. -/
theorem stack_rank_partition (events : List CalendarEvent) :
    (∀ e ∈ events, e.is_focus_block = false → e.is_commute = false →
        (e ∈ (stack_rank_meetings events).critical ∨ e ∈ (stack_rank_meetings events).important ∨
         e ∈ (stack_rank_meetings events).moderate ∨ e ∈ (stack_rank_meetings events).cancelable)) ∧
    (∀ e : CalendarEvent, (e.is_focus_block = true ∨ e.is_commute = true) →
        e ∉ (stack_rank_meetings events).critical ∧ e ∉ (stack_rank_meetings events).important ∧
        e ∉ (stack_rank_meetings events).moderate ∧ e ∉ (stack_rank_meetings events).cancelable) ∧
    (∀ e : CalendarEvent,
        (e ∈ (stack_rank_meetings events).critical →
          e ∉ (stack_rank_meetings events).important ∧ e ∉ (stack_rank_meetings events).moderate ∧
          e ∉ (stack_rank_meetings events).cancelable) ∧
        (e ∈ (stack_rank_meetings events).important →
          e ∉ (stack_rank_meetings events).moderate ∧ e ∉ (stack_rank_meetings events).cancelable) ∧
        (e ∈ (stack_rank_meetings events).moderate → e ∉ (stack_rank_meetings events).cancelable)) ∧
    (List.Sublist (stack_rank_meetings events).critical events ∧
     List.Sublist (stack_rank_meetings events).important events ∧
     List.Sublist (stack_rank_meetings events).moderate events ∧
     List.Sublist (stack_rank_meetings events).cancelable events) := by
  have hc : (stack_rank_meetings events).critical = (events.filter isMeeting).filter critHit :=
    rankLoop_critical _
  have hi : (stack_rank_meetings events).important
      = (events.filter isMeeting).filter fun e => !critHit e && impHit e :=
    rankLoop_important _
  have hm : (stack_rank_meetings events).moderate
      = (events.filter isMeeting).filter fun e => !critHit e && !impHit e && (modHit e || !cancHit e) :=
    rankLoop_moderate _
  have hcb : (stack_rank_meetings events).cancelable
      = (events.filter isMeeting).filter fun e => !critHit e && !impHit e && !modHit e && cancHit e :=
    rankLoop_cancelable _
  refine ⟨?_, ?_, ?_, ?_⟩
  · intro e he hf hcm
    have hmeet : e ∈ events.filter isMeeting :=
      List.mem_filter.mpr ⟨he, by simp [isMeeting, hf, hcm]⟩
    rw [hc, hi, hm, hcb]
    by_cases h1 : critHit e = true
    · exact Or.inl (List.mem_filter.mpr ⟨hmeet, h1⟩)
    by_cases h2 : impHit e = true
    · exact Or.inr (Or.inl (List.mem_filter.mpr ⟨hmeet, by simp [h1, h2]⟩))
    by_cases h3 : modHit e = true
    · exact Or.inr (Or.inr (Or.inl (List.mem_filter.mpr ⟨hmeet, by simp [h1, h2, h3]⟩)))
    by_cases h4 : cancHit e = true
    · exact Or.inr (Or.inr (Or.inr (List.mem_filter.mpr ⟨hmeet, by simp [h1, h2, h3, h4]⟩)))
    · exact Or.inr (Or.inr (Or.inl (List.mem_filter.mpr ⟨hmeet, by simp [h1, h2, h3, h4]⟩)))
  · intro e hflag
    have hnomeet : isMeeting e = false := by
      rcases hflag with h | h <;> simp [isMeeting, h]
    rw [hc, hi, hm, hcb]
    refine ⟨?_, ?_, ?_, ?_⟩ <;>
      · intro hmem
        have := (List.mem_filter.mp (List.mem_filter.mp hmem).1).2
        rw [hnomeet] at this
        exact Bool.false_ne_true this
  · intro e
    rw [hc, hi, hm, hcb]
    refine ⟨?_, ?_, ?_⟩
    · intro hmem
      have h1 := (List.mem_filter.mp hmem).2
      refine ⟨?_, ?_, ?_⟩ <;>
        · intro hmem2
          have h2 := (List.mem_filter.mp hmem2).2
          simp [h1] at h2
    · intro hmem
      have h1 := (List.mem_filter.mp hmem).2
      simp only [Bool.and_eq_true, Bool.not_eq_true'] at h1
      refine ⟨?_, ?_⟩ <;>
        · intro hmem2
          have h2 := (List.mem_filter.mp hmem2).2
          simp [h1.1, h1.2] at h2
    · intro hmem
      have h1 := (List.mem_filter.mp hmem).2
      simp only [Bool.and_eq_true, Bool.or_eq_true, Bool.not_eq_true'] at h1
      intro hmem2
      have h2 := (List.mem_filter.mp hmem2).2
      simp only [Bool.and_eq_true, Bool.not_eq_true'] at h2
      rcases h1.2 with h3 | h3
      · rw [h2.1.2] at h3; exact Bool.false_ne_true h3
      · rw [h2.2] at h3; exact Bool.false_ne_true h3.symm
  · rw [hc, hi, hm, hcb]
    exact ⟨(List.filter_sublist _).trans (List.filter_sublist _),
           (List.filter_sublist _).trans (List.filter_sublist _),
           (List.filter_sublist _).trans (List.filter_sublist _),
           (List.filter_sublist _).trans (List.filter_sublist _)⟩

/-- Witness for C3: in the spec's three-meeting scenario, "Daily Standup" lands in one of
the four tiers. -/
theorem stack_rank_partition_witness :
    evDaily ∈ (stack_rank_meetings [evDaily, evProd, evSync]).critical ∨
    evDaily ∈ (stack_rank_meetings [evDaily, evProd, evSync]).important ∨
    evDaily ∈ (stack_rank_meetings [evDaily, evProd, evSync]).moderate ∨
    evDaily ∈ (stack_rank_meetings [evDaily, evProd, evSync]).cancelable :=
  (stack_rank_partition [evDaily, evProd, evSync]).1 evDaily (by decide) (by decide) (by decide)

/-- Claim C4: an event that survives the focus/commute filter and matches no rule 1-3
keyword is placed in `cancelable` exactly when `duration_minutes <= 30` or its lowercased
title contains "list"; otherwise it falls through to `moderate`. -/
theorem rule4_cancelable_iff (events : List CalendarEvent) (e : CalendarEvent)
    (he : e ∈ events)
    (hf : e.is_focus_block = false) (hcm : e.is_commute = false)
    (h1 : critHit e = false) (h2 : impHit e = false) (h3 : modHit e = false) :
    (e ∈ (stack_rank_meetings events).cancelable ↔
      (e.duration_minutes ≤ 30 ∨ hasSub cancelListKw (pyLower e.title) = true)) ∧
    (¬(e.duration_minutes ≤ 30 ∨ hasSub cancelListKw (pyLower e.title) = true) →
      e ∈ (stack_rank_meetings events).moderate) := by
  have hmeet : e ∈ events.filter isMeeting :=
    List.mem_filter.mpr ⟨he, by simp [isMeeting, hf, hcm]⟩
  constructor
  · rw [show (stack_rank_meetings events).cancelable
        = (events.filter isMeeting).filter
            fun e => !critHit e && !impHit e && !modHit e && cancHit e from rankLoop_cancelable _]
    rw [List.mem_filter]
    constructor
    · rintro ⟨-, hp⟩
      simp only [h1, h2, h3, Bool.not_false, Bool.true_and, Bool.and_eq_true] at hp
      simpa [cancHit, Bool.or_eq_true, decide_eq_true_eq] using hp
    · intro hor
      refine ⟨hmeet, ?_⟩
      simp only [h1, h2, h3, Bool.not_false, Bool.true_and]
      simpa [cancHit, Bool.or_eq_true, decide_eq_true_eq] using hor
  · intro hnor
    have hcanc : cancHit e = false := by
      rcases not_or.mp hnor with ⟨hA, hB⟩
      simp only [cancHit, Bool.or_eq_true, decide_eq_true_eq]
      simp only [Bool.or_eq_false_iff]
      exact ⟨by simpa using hA, by simpa using hB⟩
    rw [show (stack_rank_meetings events).moderate
        = (events.filter isMeeting).filter
            fun e => !critHit e && !impHit e && (modHit e || !cancHit e) from rankLoop_moderate _]
    exact List.mem_filter.mpr ⟨hmeet, by simp [h1, h2, h3, hcanc]⟩

/-- Witness for C4: a 90-minute meeting titled "todo list deep dive" matches no rule 1-3
keyword, and the theorem places it in `cancelable` via the "list" disjunct. -/
theorem rule4_cancelable_witness :
    (evListLong ∈ (stack_rank_meetings [evListLong]).cancelable ↔
      (evListLong.duration_minutes ≤ 30 ∨ hasSub cancelListKw (pyLower evListLong.title) = true)) ∧
    (¬(evListLong.duration_minutes ≤ 30 ∨ hasSub cancelListKw (pyLower evListLong.title) = true) →
      evListLong ∈ (stack_rank_meetings [evListLong]).moderate) :=
  rule4_cancelable_iff [evListLong] evListLong (by decide) (by decide) (by decide)
    (by decide) (by decide) (by decide)

/-- Counterexample to claim C5: the dataclass performs no interval validation, so an event
with `end` strictly before `start` is constructed successfully (the constructor is a total
function, mirroring the generated `__init__`), keeps its fields unchanged, and even reports
a negative duration; no InvalidInterval error exists anywhere in the code. -/
theorem construction_never_fails_cex :
    evBad.start = 100 ∧ evBad.«end» = 0 ∧ evBad.«end» < evBad.start ∧
    evBad.duration_minutes = -1 := by decide

/-- Claim C5 (amended): constructing an event with `end < start` succeeds — the constructor
is total, raises nothing, and stores the interval exactly as given (no clamping). -/
theorem construction_total_and_unclamped (i t : List Char) (s e : Int) (st : EventStatus)
    (loc desc : Option (List Char)) (att : Option (List Attendee)) (link : Bool)
    (_h : e < s) :
    (CalendarEvent.mk i t s e st loc desc att link).start = s ∧
    (CalendarEvent.mk i t s e st loc desc att link).«end» = e :=
  ⟨rfl, rfl⟩

/-- Witness for the amended C5 at a concrete inverted interval. -/
theorem construction_total_witness :
    (0 : Int) < 100 ∧
    ((CalendarEvent.mk ("e3".toList) ("x".toList) 100 0 .accepted none none none false).start = 100 ∧
     (CalendarEvent.mk ("e3".toList) ("x".toList) 100 0 .accepted none none none false).«end» = 0) :=
  ⟨by decide,
    construction_total_and_unclamped ("e3".toList) ("x".toList) 100 0 .accepted
      none none none false (by decide)⟩

/-- Counterexample to claim C6: an event spanning 90 seconds (1.5 minutes).  The code
truncates, `int(1.5) = 1`, while the spec's `round` gives 2. -/
theorem duration_rounds_cex :
    evNinety.«end» - evNinety.start = 90 ∧
    evNinety.duration_minutes = 1 ∧
    roundSpecMinutes (evNinety.«end» - evNinety.start) = 2 ∧
    evNinety.duration_minutes ≠ roundSpecMinutes (evNinety.«end» - evNinety.start) := by decide

/-- Claim C6 (amended): for every event with `start ≤ end`, `duration_minutes` is the span
in whole minutes rounded DOWN (truncation, which is floor on a nonnegative span), i.e. it is
the unique `d` with `60 * d ≤ end - start < 60 * (d + 1)`. -/
theorem duration_minutes_floor (e : CalendarEvent) (h : e.start ≤ e.«end») :
    60 * e.duration_minutes ≤ e.«end» - e.start ∧
    e.«end» - e.start < 60 * (e.duration_minutes + 1) := by
  have hs : (0 : Int) ≤ e.«end» - e.start := by omega
  unfold CalendarEvent.duration_minutes pyTruncMinutes
  rw [if_pos hs]
  have h1 : ((e.«end» - e.start).toNat : Int) = e.«end» - e.start := Int.toNat_of_nonneg hs
  have h2 : (e.«end» - e.start).toNat % 60 + 60 * ((e.«end» - e.start).toNat / 60)
      = (e.«end» - e.start).toNat := Nat.mod_add_div _ _
  have h3 : (e.«end» - e.start).toNat % 60 < 60 := Nat.mod_lt _ (by norm_num)
  omega

/-- Witness for the amended C6: a 3725-second event has duration 62 minutes. -/
theorem duration_minutes_floor_witness :
    evOddLen.start ≤ evOddLen.«end» ∧
    (60 * evOddLen.duration_minutes ≤ evOddLen.«end» - evOddLen.start ∧
     evOddLen.«end» - evOddLen.start < 60 * (evOddLen.duration_minutes + 1)) :=
  ⟨by decide, duration_minutes_floor evOddLen (by decide)⟩

/-- Counterexample to claim C8: analyzing an empty day returns an empty free-block list
(`_find_free_blocks` returns `[]` on empty input before the workday window is considered),
not the whole 09:00-22:00 window. -/
theorem empty_day_free_blocks_cex :
    (analyze_schedule 0 []).free_blocks = [] ∧
    (analyze_schedule 0 []).free_blocks ≠ [(32400, 79200)] := by
  exact ⟨by decide, by decide⟩

/-- Claim C8 (amended): for an empty event list, `analyze_schedule` returns
`free_blocks = []` (per the spec's own algorithm section: "Empty input yields no free
blocks"), `back_to_back_count = 0` and `total_events = 0`, for every current date. -/
theorem analyze_empty_day (today : Int) :
    (analyze_schedule today []).free_blocks = [] ∧
    (analyze_schedule today []).back_to_back_count = 0 ∧
    (analyze_schedule today []).total_events = 0 := by
  refine ⟨?_, rfl, rfl⟩
  simp [analyze_schedule, find_free_blocks]

lemma orderedInsert_proj_congr (a b : CalendarEvent) (hab : proj a = proj b) :
    ∀ l₁ l₂ : List CalendarEvent, l₁.map proj = l₂.map proj →
      (l₁.orderedInsert startLe a).map proj = (l₂.orderedInsert startLe b).map proj := by
  intro l₁
  induction l₁ with
  | nil =>
    intro l₂ h
    have hl : l₂ = [] := by
      cases l₂ with
      | nil => rfl
      | cons d t₂ => simp at h
    subst hl
    simp [List.orderedInsert, hab]
  | cons c t ih =>
    intro l₂ h
    cases l₂ with
    | nil => simp at h
    | cons d t₂ =>
      simp only [List.map_cons, List.cons.injEq] at h
      obtain ⟨hcd, ht⟩ := h
      have hstart : a.start = b.start := congrArg Prod.fst hab
      have hcds : c.start = d.start := congrArg Prod.fst hcd
      by_cases hle : startLe a c
      · have hle2 : startLe b d := by unfold startLe at *; omega
        rw [List.orderedInsert, List.orderedInsert, if_pos hle, if_pos hle2]
        simp only [List.map_cons, hab, hcd, ht]
      · have hle2 : ¬ startLe b d := by unfold startLe at *; omega
        rw [List.orderedInsert, List.orderedInsert, if_neg hle, if_neg hle2]
        simp only [List.map_cons, hcd, List.cons.injEq, true_and]
        exact ih t₂ ht

lemma sortByStart_proj_congr :
    ∀ l₁ l₂ : List CalendarEvent, l₁.map proj = l₂.map proj →
      (sortByStart l₁).map proj = (sortByStart l₂).map proj := by
  intro l₁
  induction l₁ with
  | nil =>
    intro l₂ h
    have hl : l₂ = [] := by
      cases l₂ with
      | nil => rfl
      | cons d t₂ => simp at h
    subst hl
    rfl
  | cons a t ih =>
    intro l₂ h
    cases l₂ with
    | nil => simp at h
    | cons b t₂ =>
      simp only [List.map_cons, List.cons.injEq] at h
      obtain ⟨hab, ht⟩ := h
      simp only [sortByStart, List.insertionSort]
      exact orderedInsert_proj_congr a b hab _ _ (ih t₂ ht)

lemma beforeBlock_congr (ws m : Int) :
    ∀ l₁ l₂ : List CalendarEvent, l₁.map proj = l₂.map proj →
      beforeBlock ws m l₁ = beforeBlock ws m l₂ := by
  intro l₁ l₂ h
  cases l₁ with
  | nil =>
    cases l₂ with
    | nil => rfl
    | cons b t₂ => simp at h
  | cons a t =>
    cases l₂ with
    | nil => simp at h
    | cons b t₂ =>
      simp only [List.map_cons, List.cons.injEq] at h
      have hstart : a.start = b.start := congrArg Prod.fst h.1
      simp [beforeBlock, hstart]

lemma gapBlocks_congr (m : Int) :
    ∀ l₁ l₂ : List CalendarEvent, l₁.map proj = l₂.map proj →
      gapBlocks m l₁ = gapBlocks m l₂ := by
  intro l₁
  induction l₁ with
  | nil =>
    intro l₂ h
    cases l₂ with
    | nil => rfl
    | cons b t₂ => simp at h
  | cons a t ih =>
    intro l₂ h
    cases l₂ with
    | nil => simp at h
    | cons b t₂ =>
      simp only [List.map_cons, List.cons.injEq] at h
      obtain ⟨hab, ht⟩ := h
      cases t with
      | nil =>
        cases t₂ with
        | nil => rfl
        | cons d t₃ => simp at ht
      | cons c t' =>
        cases t₂ with
        | nil => simp at ht
        | cons d t₃ =>
          simp only [List.map_cons, List.cons.injEq] at ht
          obtain ⟨hcd, ht'⟩ := ht
          have hrec : gapBlocks m (c :: t') = gapBlocks m (d :: t₃) := by
            apply ih
            simp [hcd, ht']
          have hstart : c.start = d.start := congrArg Prod.fst hcd
          have hend : a.«end» = b.«end» := congrArg Prod.snd hab
          simp only [gapBlocks, hrec, hstart, hend]

lemma afterBlock_congr (we m : Int) :
    ∀ l₁ l₂ : List CalendarEvent, l₁.map proj = l₂.map proj →
      afterBlock we m l₁ = afterBlock we m l₂ := by
  intro l₁
  induction l₁ with
  | nil =>
    intro l₂ h
    cases l₂ with
    | nil => rfl
    | cons b t₂ => simp at h
  | cons a t ih =>
    intro l₂ h
    cases l₂ with
    | nil => simp at h
    | cons b t₂ =>
      simp only [List.map_cons, List.cons.injEq] at h
      obtain ⟨hab, ht⟩ := h
      cases t with
      | nil =>
        cases t₂ with
        | nil =>
          have hend : a.«end» = b.«end» := congrArg Prod.snd hab
          simp [afterBlock, hend]
        | cons d t₃ => simp at ht
      | cons c t' =>
        cases t₂ with
        | nil => simp at ht
        | cons d t₃ =>
          show afterBlock we m (c :: t') = afterBlock we m (d :: t₃)
          exact ih (d :: t₃) ht

lemma find_free_blocks_congr (today m : Int) (l₁ l₂ : List CalendarEvent)
    (h : l₁.map proj = l₂.map proj) :
    find_free_blocks today l₁ m = find_free_blocks today l₂ m := by
  have hemp : l₁.isEmpty = l₂.isEmpty := by
    cases l₁ <;> cases l₂ <;> simp_all
  have hs := sortByStart_proj_congr l₁ l₂ h
  unfold find_free_blocks
  rw [hemp]
  by_cases he : l₂.isEmpty
  · rw [if_pos he, if_pos he]
  · rw [if_neg he, if_neg he]
    rw [beforeBlock_congr _ _ _ _ hs, gapBlocks_congr _ _ _ hs, afterBlock_congr _ _ _ _ hs]

lemma pairGapCount_congr :
    ∀ l₁ l₂ : List CalendarEvent, l₁.map proj = l₂.map proj →
      pairGapCount l₁ = pairGapCount l₂ := by
  intro l₁
  induction l₁ with
  | nil =>
    intro l₂ h
    cases l₂ with
    | nil => rfl
    | cons b t₂ => simp at h
  | cons a t ih =>
    intro l₂ h
    cases l₂ with
    | nil => simp at h
    | cons b t₂ =>
      simp only [List.map_cons, List.cons.injEq] at h
      obtain ⟨hab, ht⟩ := h
      cases t with
      | nil =>
        cases t₂ with
        | nil => rfl
        | cons d t₃ => simp at ht
      | cons c t' =>
        cases t₂ with
        | nil => simp at ht
        | cons d t₃ =>
          simp only [List.map_cons, List.cons.injEq] at ht
          obtain ⟨hcd, ht'⟩ := ht
          have hrec : pairGapCount (c :: t') = pairGapCount (d :: t₃) := by
            apply ih
            simp [hcd, ht']
          have hstart : c.start = d.start := congrArg Prod.fst hcd
          have hend : a.«end» = b.«end» := congrArg Prod.snd hab
          simp only [pairGapCount, hrec, hstart, hend]

lemma count_back_to_back_congr (l₁ l₂ : List CalendarEvent)
    (h : l₁.map proj = l₂.map proj) :
    count_back_to_back l₁ = count_back_to_back l₂ := by
  have hlen : l₁.length = l₂.length := by
    have := congrArg List.length h
    simpa using this
  unfold count_back_to_back
  rw [hlen]
  by_cases h2 : l₂.length < 2
  · rw [if_pos h2, if_pos h2]
  · rw [if_neg h2, if_neg h2]
    exact pairGapCount_congr _ _ (sortByStart_proj_congr l₁ l₂ h)

/-- Counterexample to claim C7: `_find_free_blocks` reads `datetime.now()` to anchor the
workday window, so two invocations on the SAME event list and minimum duration, one day
apart, return different results. -/
theorem find_free_blocks_wallclock_cex :
    find_free_blocks 0 [evMeeting] 30 ≠ find_free_blocks 86400 [evMeeting] 30 := by decide

/-- Claim C7 (amended): for a fixed wall-clock date, `_find_free_blocks` is a pure function
of its inputs; its output depends on the events only through their start/end times (not on
titles or any other field).  It is not independent of the wall clock: the workday window is
anchored to the current date (see the counterexample). -/
theorem find_free_blocks_pure (today m : Int) (l₁ l₂ : List CalendarEvent)
    (h : l₁.map proj = l₂.map proj) :
    find_free_blocks today l₁ m = find_free_blocks today l₂ m :=
  find_free_blocks_congr today m l₁ l₂ h

/-- Witness for the amended C7: two events with the same interval and different titles. -/
theorem find_free_blocks_pure_witness :
    ([evMeeting].map proj = [evMeetingB].map proj) ∧
    find_free_blocks 0 [evMeeting] 30 = find_free_blocks 0 [evMeetingB] 30 :=
  ⟨by decide, find_free_blocks_pure 0 30 [evMeeting] [evMeetingB] (by decide)⟩

/-- Counterexample to claim C10: `evZeroWidth` and `evAfterZero` share a start time (t=10)
but have different ends; swapping them changes which free interval is produced — the block
`(10, 2000)` appears in one order and not the other, so even the SET of free intervals
changes. -/
theorem equal_start_swap_changes_free_blocks_cex :
    evZeroWidth.start = evAfterZero.start ∧
    (10, 2000) ∈ find_free_blocks 0 [evAfterZero, evZeroWidth, evLate] 30 ∧
    (10, 2000) ∉ find_free_blocks 0 [evZeroWidth, evAfterZero, evLate] 30 := by decide

/-- Claim C10 (amended): swapping two events with identical start AND identical end times
leaves both the free-block list and the back-to-back count unchanged; with identical starts
but different ends the results can change (see the counterexample). -/
theorem swap_identical_interval_invariant (today m : Int)
    (xs ys zs : List CalendarEvent) (a b : CalendarEvent)
    (h1 : a.start = b.start) (h2 : a.«end» = b.«end») :
    find_free_blocks today (xs ++ a :: (ys ++ b :: zs)) m
      = find_free_blocks today (xs ++ b :: (ys ++ a :: zs)) m ∧
    count_back_to_back (xs ++ a :: (ys ++ b :: zs))
      = count_back_to_back (xs ++ b :: (ys ++ a :: zs)) := by
  have hproj : proj a = proj b := by unfold proj; rw [h1, h2]
  have hmap : (xs ++ a :: (ys ++ b :: zs)).map proj = (xs ++ b :: (ys ++ a :: zs)).map proj := by
    simp [hproj]
  exact ⟨find_free_blocks_congr _ _ _ _ hmap, count_back_to_back_congr _ _ hmap⟩

/-- Witness for the amended C10: swapping the identical-interval twins changes nothing. -/
theorem swap_identical_interval_witness :
    (evTwinA.start = evTwinB.start ∧ evTwinA.«end» = evTwinB.«end») ∧
    (find_free_blocks 0 ([] ++ evTwinA :: ([] ++ evTwinB :: [])) 30
        = find_free_blocks 0 ([] ++ evTwinB :: ([] ++ evTwinA :: [])) 30 ∧
      count_back_to_back ([] ++ evTwinA :: ([] ++ evTwinB :: []))
        = count_back_to_back ([] ++ evTwinB :: ([] ++ evTwinA :: []))) :=
  ⟨⟨rfl, rfl⟩, swap_identical_interval_invariant 0 30 [] [] [] evTwinA evTwinB rfl rfl⟩

lemma leadEq_of_append (n : List Char) :
    ∀ s y : List Char, leadEq n s = true → leadEq n (s ++ y) = true := by
  induction n with
  | nil => intro s y _; simp [leadEq]
  | cons c cs ih =>
    intro s y h
    cases s with
    | nil => simp [leadEq] at h
    | cons d ds =>
      simp only [List.cons_append, leadEq, Bool.and_eq_true] at h ⊢
      exact ⟨h.1, ih ds y h.2⟩

lemma hasSub_nil_needle : ∀ y : List Char, hasSub [] y = true := by
  intro y
  cases y <;> simp [hasSub, leadEq]

lemma hasSub_append_left (n : List Char) :
    ∀ x y : List Char, hasSub n x = true → hasSub n (x ++ y) = true := by
  intro x
  induction x with
  | nil =>
    intro y h
    cases n with
    | nil => simpa using hasSub_nil_needle y
    | cons c cs => simp [hasSub, leadEq] at h
  | cons d t ih =>
    intro y h
    simp only [hasSub, Bool.or_eq_true] at h
    rcases h with h | h
    · have h2 := leadEq_of_append n (d :: t) y h
      simp only [List.cons_append, hasSub, Bool.or_eq_true]
      exact Or.inl (by simpa [List.cons_append] using h2)
    · simp only [List.cons_append, hasSub, Bool.or_eq_true]
      exact Or.inr (ih y h)

lemma hasSub_head_notin (c : Char) (n : List Char) :
    ∀ x y : List Char, (∀ d ∈ x, (c == d) = false) →
      hasSub (c :: n) (x ++ y) = hasSub (c :: n) y := by
  intro x
  induction x with
  | nil => intro y _; rfl
  | cons d t ih =>
    intro y hx
    have hd : (c == d) = false := hx d (by simp)
    simp only [List.cons_append, hasSub, leadEq, hd, Bool.false_and, Bool.false_or]
    exact ih y fun d2 hd2 => hx d2 (List.mem_cons_of_mem d hd2)

/-- Counterexample to claim C9: an event titled "🎯 Commute" has BOTH derived flags true, so
the flags do not place every event in exactly one of three disjoint roles. -/
theorem flags_both_true_cex :
    (mkTitled ("🎯 Commute".toList)).is_focus_block = true ∧
    (mkTitled ("🎯 Commute".toList)).is_commute = true := by decide

/-- Claim C9 (amended): the two derived flags are not mutually exclusive for arbitrary
titles (counterexample "🎯 Commute"); disjoint roles do hold for the titles the manager
itself constructs: `create_commute_block`'s fixed title "🚗 Commute" has exactly the commute
role, and `create_focus_block`'s title `"🎯 Focus Block: " + t` has exactly the focus role
for every user title `t` free of commute markers. -/
theorem constructed_block_roles (t : List Char)
    (hc : hasSub commuteKw t = false) (he : hasSub commuteEmojiKw t = false) :
    (mkTitled (focusBlockTitle t)).is_focus_block = true ∧
    (mkTitled (focusBlockTitle t)).is_commute = false ∧
    (mkTitled commuteBlockTitle).is_commute = true ∧
    (mkTitled commuteBlockTitle).is_focus_block = false := by
  refine ⟨?_, ?_, by decide, by decide⟩
  · have h2 := hasSub_append_left focusBlockKw ("🎯 Focus Block: ".toList) t (by decide)
    show (hasSub focusBlockKw ("🎯 Focus Block: ".toList ++ t)
        || hasSub focusEmojiKw ("🎯 Focus Block: ".toList ++ t)) = true
    rw [h2, Bool.true_or]
  · have hshape1 : commuteKw = 'C' :: "ommute".toList := by decide
    have hshape2 : commuteEmojiKw = '🚗' :: ([] : List Char) := by decide
    have h1 : hasSub commuteKw ("🎯 Focus Block: ".toList ++ t) = false := by
      rw [hshape1,
        hasSub_head_notin 'C' ("ommute".toList) ("🎯 Focus Block: ".toList) t (by decide)]
      rw [← hshape1]
      exact hc
    have h2 : hasSub commuteEmojiKw ("🎯 Focus Block: ".toList ++ t) = false := by
      rw [hshape2,
        hasSub_head_notin '🚗' [] ("🎯 Focus Block: ".toList) t (by decide)]
      rw [← hshape2]
      exact he
    show (hasSub commuteKw ("🎯 Focus Block: ".toList ++ t)
        || hasSub commuteEmojiKw ("🎯 Focus Block: ".toList ++ t)) = false
    rw [h1, h2, Bool.or_self]

/-- Witness for the amended C9 with the marker-free user title "deep work". -/
theorem constructed_block_roles_witness :
    (hasSub commuteKw ("deep work".toList) = false ∧
     hasSub commuteEmojiKw ("deep work".toList) = false) ∧
    ((mkTitled (focusBlockTitle ("deep work".toList))).is_focus_block = true ∧
     (mkTitled (focusBlockTitle ("deep work".toList))).is_commute = false ∧
     (mkTitled commuteBlockTitle).is_commute = true ∧
     (mkTitled commuteBlockTitle).is_focus_block = false) :=
  ⟨⟨by decide, by decide⟩, constructed_block_roles ("deep work".toList) (by decide) (by decide)⟩

end CalendarAgent
